import Mathlib

/-!
Verification of the `EfficientFrontier` optimisation orchestrator
(`pypfopt/efficient_frontier.py`) against its specification.

The Python class is shallowly embedded: its mutable instance state becomes
an explicit `EFState` record, every public method becomes a pure function
from a state (plus arguments) to a `CallResult` holding the state after the
call, the warnings surfaced during the call, and either the returned
weight mapping or the exception raised.  The external iterative solver
(`scipy.optimize.minimize`) and the dense linear solver
(`numpy.linalg.solve`) are not part of the repository; each is modelled as
an oracle parameter — a function from the whole problem the source hands
it (objective, initial guess, bounds, constraints) to the weight vector it
terminates at — so theorems quantify over every possible solver outcome.
Numeric values are rationals; Python's float/int distinction and the
non-finite floats, which the source's `isinstance` guards and comparisons
observe, are modelled by `PyVal`/`PyFloat`.
-/

/-- Dot product of two rational vectors, truncating at the shorter one. -/
def dot : List ℚ → List ℚ → ℚ
  | a :: as, b :: bs => a * b + dot as bs
  | _, _ => 0

/-- Matrix–vector product, the matrix given as a list of rows. -/
def matVec (m : List (List ℚ)) (v : List ℚ) : List ℚ :=
  m.map (fun r => dot r v)

/-- Quadratic form wᵀ·M·w. -/
def quadForm (w : List ℚ) (m : List (List ℚ)) : ℚ :=
  dot w (matVec m w)

/-- Squared euclidean norm ‖w‖². -/
def sqNorm (w : List ℚ) : ℚ := dot w w

/-- Sum of a list of rationals (numpy.sum). -/
def listSum (l : List ℚ) : ℚ := l.foldr (fun a b => a + b) 0

/-- Scale every entry of a row by a constant. -/
def smulRow (c : ℚ) (r : List ℚ) : List ℚ := r.map (fun a => c * a)

/-- Scale every entry of a matrix by a constant (`risk_aversion * self.cov_matrix`). -/
def smulMat (c : ℚ) (m : List (List ℚ)) : List (List ℚ) := m.map (smulRow c)

/-- `numpy.isclose` with its default tolerances: |a - b| ≤ atol + rtol·|b|
with atol = 1e-8 and rtol = 1e-5, for finite arguments. -/
def npIsClose (a b : ℚ) : Bool :=
  decide (|a - b| ≤ 1 / 100000000 + |b| / 100000)

/-- Modelled from the spec: `objective_functions.volatility` (the
`objective_functions` module is not under `src/`); §4.1 defines
`volatility(w, Σ, γ) = wᵀΣw + γ‖w‖²`.  The source calls it with γ = 0
when γ is not passed. -/
def volatility (w : List ℚ) (cov : List (List ℚ)) (γ : ℚ) : ℚ :=
  quadForm w cov + γ * sqNorm w

/-- A Python float: either a finite value or one of the three non-finite
floats, which the source's comparisons and `np.isclose` observe. -/
inductive PyFloat
  | finite (q : ℚ)
  | inf
  | ninf
  | nan
deriving DecidableEq, Repr

/-- A Python value in a numeric position: an `int`, a `float`, or a value
of some other, non-numeric type. -/
inductive PyVal
  | int (n : ℤ)
  | float (f : PyFloat)
  | other
deriving DecidableEq, Repr

/-- `isinstance(v, (int, float))`. -/
def PyVal.isNumeric : PyVal → Bool
  | .int _ => true
  | .float _ => true
  | .other => false

/-- `isinstance(v, float)`. -/
def PyVal.isFloat : PyVal → Bool
  | .float _ => true
  | _ => false

/-- Python's `f < 0` on a float: false on `nan` and `inf`, true on `-inf`. -/
def PyFloat.ltZero : PyFloat → Bool
  | .finite q => decide (q < 0)
  | .inf => false
  | .ninf => true
  | .nan => false

/-- Python's `v < 0` on a numeric value. -/
def PyVal.ltZero : PyVal → Bool
  | .int n => decide (n < 0)
  | .float f => f.ltZero
  | .other => false

/-- An asset identifier: a label coming from a pandas index/columns, or a
positional index produced by `list(range(...))`. -/
inductive Ticker
  | label (n : ℕ)
  | pos (n : ℕ)
deriving DecidableEq, Repr

/-- The exceptions the embedded code can raise. -/
inductive PyErr
  | typeError_lenOfNone
  | valueError_bounds
  | valueError_gamma
  | valueError_riskFreeRate
  | valueError_targetRisk
  | valueError_targetReturn
  | valueError_riskAversion
  | infeasibleIncreaseTargetRisk
  | infeasibleReduceTargetReturn
  | attributeError_expectedReturns
  | valueError_weightsNotComputed
deriving DecidableEq, Repr

/-- The warnings the embedded code can surface. -/
inductive Warn
  | gammaShouldBePositive
  | marketNeutralityRequiresShorting
deriving DecidableEq, Repr

/-- A constraint descriptor handed to the solver, one constructor per
lambda the source builds:
`sumTo1` is the stored default budget constraint (fun w ↦ Σw − 1 = 0),
`sumTo0` is `lambda x: np.sum(x)` of the market-neutral branch,
`riskTarget t cov` is `lambda w: target_risk**2 - volatility(w, cov)`,
`returnTarget t mu` is `lambda w: w.dot(mu) - target_return`. -/
inductive Constraint
  | sumTo1
  | sumTo0
  | riskTarget (t : PyFloat) (cov : List (List ℚ))
  | returnTarget (t : PyFloat) (mu : List ℚ)
deriving DecidableEq, Repr

/-- Value of a constraint's function at a weight vector (an equality
constraint is satisfied when this is 0).  Non-finite targets would
propagate non-finite values; they are mapped to a junk value here and no
theorem relies on that case. -/
def evalConstraint : Constraint → List ℚ → ℚ
  | .sumTo1, w => listSum w - 1
  | .sumTo0, w => listSum w
  | .riskTarget (.finite t) cov, w => t * t - volatility w cov 0
  | .riskTarget _ _, _ => 0
  | .returnTarget (.finite t) mu, w => dot w mu - t
  | .returnTarget _ _, _ => 0

/-- The objective function handed to the solver, with the extra `args`
the source packs alongside it. -/
inductive ObjectiveTag
  | negSharpe (mu : List ℚ) (cov : List (List ℚ)) (gamma : PyVal) (rfr : PyVal)
  | volatilityObj (cov : List (List ℚ)) (gamma : PyVal)
  | negMeanReturn (mu : List ℚ)
  | customObj
deriving DecidableEq, Repr

/-- Everything `sco.minimize` receives from the source: objective and args,
initial guess, box bounds, constraint list. -/
structure SolverInput where
  objective : ObjectiveTag
  x0 : List ℚ
  bounds : List (Option ℚ × Option ℚ)
  constraints : List Constraint
deriving DecidableEq, Repr

/-- The mutable instance state of an `EfficientFrontier` object.
`expected_returns` is `none` when the attribute was never set
(construction with `expected_returns=None` skips the assignment). -/
structure EFState where
  n_assets : ℕ
  tickers : List Ticker
  bounds : List (Option ℚ × Option ℚ)
  cov_matrix : List (List ℚ)
  expected_returns : Option (List ℚ)
  gamma : PyVal
  initial_guess : List ℚ
  constraints : List Constraint
  weights : Option (List ℚ)
deriving DecidableEq, Repr

/-- Outcome of one method call: the instance state after the call (Python
mutations of `self` persist even when an exception is raised), the
warnings surfaced, and either the return value or the exception. -/
structure CallResult (α : Type) where
  state : EFState
  warns : List Warn
  out : Except PyErr α

/-- `dict(zip(self.tickers, self.weights))`, as an association list. -/
def zipDict (ts : List Ticker) (w : List ℚ) : List (Ticker × ℚ) :=
  List.zip ts w

/-- The accepted forms of the `expected_returns` constructor argument:
a pandas Series (with an index), a plain list, a numpy array, or `None`. -/
inductive ERInput
  | series (idx : List Ticker) (vals : List ℚ)
  | pylist (vals : List ℚ)
  | array (vals : List ℚ)
  | nothing
deriving DecidableEq, Repr

/-- The accepted forms of the `cov_matrix` constructor argument:
a pandas DataFrame (with columns) or a numpy array. -/
inductive CovInput
  | dataframe (cols : List Ticker) (rows : List (List ℚ))
  | array (rows : List (List ℚ))
deriving DecidableEq, Repr

/-- The rows of the covariance argument. -/
def CovInput.rows : CovInput → List (List ℚ)
  | .dataframe _ r => r
  | .array r => r

/-- The `weight_bounds` constructor argument: a single (min, max) pair for
every asset, or one pair per asset. -/
inductive BoundsInput
  | single (lo hi : Option ℚ)
  | perAsset (l : List (Option ℚ × Option ℚ))
deriving DecidableEq, Repr

/-- min ≤ max whenever both ends of a pair are present. -/
def boundPairOk : Option ℚ × Option ℚ → Bool
  | (some lo, some hi) => decide (lo ≤ hi)
  | _ => true

/-- Modelled from the spec: `base_optimizer._make_valid_bounds` (the
`base_optimizer` module is not under `src/`); §4.2: box bounds are
expanded from a single pair to N pairs if given as one tuple, and the
invariant min ≤ max per asset is checked, raising a configuration error
otherwise. -/
def make_valid_bounds (n : ℕ) : BoundsInput → Except PyErr (List (Option ℚ × Option ℚ))
  | .single lo hi =>
    if boundPairOk (lo, hi) then .ok (List.replicate n (lo, hi))
    else .error .valueError_bounds
  | .perAsset l =>
    if l.length = n && l.all boundPairOk then .ok l
    else .error .valueError_bounds

/-- The vector carried by an `expected_returns` argument, when present. -/
def ERInput.vec : ERInput → Option (List ℚ)
  | .series _ v => some v
  | .pylist v => some v
  | .array v => some v
  | .nothing => none

/-- `EfficientFrontier.__init__`.  The ticker list comes from the Series
index if `expected_returns` is a Series, else from the DataFrame columns
if `cov_matrix` is a DataFrame, else from `list(range(len(expected_returns)))`
— which raises `TypeError` (`len(None)`) when `expected_returns` is `None`.
The `isinstance` type checks on `expected_returns` and `cov_matrix` hold by
construction of `ERInput`/`CovInput`.  `super().__init__` is modelled from
the spec (`base_optimizer.BaseScipyOptimizer` is not under `src/`): it
stores the asset count, the tickers, the normalised bounds, the uniform
initial guess 1/N, and the default budget constraint Σw = 1 (§4.2, §4.3).
`EF_tickers` is the ticker derivation, `EF_init` the whole constructor,
returning the warnings surfaced and either the constructed state or the
exception raised. -/
def EF_tickers : ERInput → CovInput → Except PyErr (List Ticker)
  | .series idx _, _ => .ok idx
  | _, .dataframe cols _ => .ok cols
  | .nothing, .array _ => .error .typeError_lenOfNone
  | .pylist v, .array _ => .ok ((List.range v.length).map .pos)
  | .array v, .array _ => .ok ((List.range v.length).map .pos)

def EF_init (er : ERInput) (cov : CovInput) (wb : BoundsInput) (gamma : PyVal) :
    List Warn × Except PyErr EFState :=
  match EF_tickers er cov with
  | .error e => ([], .error e)
  | .ok tickers =>
    match make_valid_bounds tickers.length wb with
    | .error e => ([], .error e)
    | .ok bds =>
      if gamma.isNumeric then
        (if gamma.ltZero then [.gammaShouldBePositive] else [],
         .ok { n_assets := tickers.length
               tickers := tickers
               bounds := bds
               cov_matrix := cov.rows
               expected_returns := er.vec
               gamma := gamma
               initial_guess := List.replicate tickers.length ((1 : ℚ) / (tickers.length : ℚ))
               constraints := [.sumTo1]
               weights := none })
      else ([], .error .valueError_gamma)

/-- `EfficientFrontier.max_sharpe`: validates the risk-free rate, then
hands `negative_sharpe` with the stored problem data to the solver and
stores/returns its output.  Accessing `self.expected_returns` raises
`AttributeError` when the attribute was never set. -/
def max_sharpe (s : EFState) (rfr : PyVal) (solver : SolverInput → List ℚ) :
    CallResult (List (Ticker × ℚ)) :=
  if rfr.isNumeric then
    match s.expected_returns with
    | none => ⟨s, [], .error .attributeError_expectedReturns⟩
    | some mu =>
      let x := solver ⟨.negSharpe mu s.cov_matrix s.gamma rfr,
                       s.initial_guess, s.bounds, s.constraints⟩
      ⟨{ s with weights := some x }, [], .ok (zipDict s.tickers x)⟩
  else ⟨s, [], .error .valueError_riskFreeRate⟩

/-- `EfficientFrontier.min_volatility`: hands `volatility` with the stored
covariance and gamma to the solver; never touches `expected_returns`. -/
def min_volatility (s : EFState) (solver : SolverInput → List ℚ) :
    CallResult (List (Ticker × ℚ)) :=
  let x := solver ⟨.volatilityObj s.cov_matrix s.gamma,
                   s.initial_guess, s.bounds, s.constraints⟩
  ⟨{ s with weights := some x }, [], .ok (zipDict s.tickers x)⟩

/-- `EfficientFrontier.custom_objective`: hands an arbitrary caller-chosen
objective to the solver with the stored guess, bounds and constraints. -/
def custom_objective (s : EFState) (solver : SolverInput → List ℚ) :
    CallResult (List (Ticker × ℚ)) :=
  let x := solver ⟨.customObj, s.initial_guess, s.bounds, s.constraints⟩
  ⟨{ s with weights := some x }, [], .ok (zipDict s.tickers x)⟩

/-- `EfficientFrontier.max_unconstrained_utility`: rejects
`risk_aversion <= 0`, then stores and returns
`np.linalg.solve(risk_aversion * cov_matrix, expected_returns)`.
The linear solver is the oracle `lin`; bounds, gamma, initial guess and
constraints are never read. -/
def max_unconstrained_utility (s : EFState) (risk_aversion : ℚ)
    (lin : List (List ℚ) → List ℚ → List ℚ) : CallResult (List (Ticker × ℚ)) :=
  if risk_aversion ≤ 0 then ⟨s, [], .error .valueError_riskAversion⟩
  else
    match s.expected_returns with
    | none => ⟨s, [], .error .attributeError_expectedReturns⟩
    | some mu =>
      let w := lin (smulMat risk_aversion s.cov_matrix) mu
      ⟨{ s with weights := some w }, [], .ok (zipDict s.tickers w)⟩

/-- `any(b[0] < 0 for b in self.bounds if b[0] is not None)`. -/
def shortingPossible (bs : List (Option ℚ × Option ℚ)) : Bool :=
  bs.any (fun b =>
    match b.1 with
    | some lo => decide (lo < 0)
    | none => false)

/-- The market-neutral fallback shared by `efficient_risk` and
`efficient_return` (lines 220–227 and 279–286): when no lower bound is
negative, overwrite the stored bounds with `_make_valid_bounds((-1, 1))`
and surface a `RuntimeWarning`; the `.error` branch of the bounds call is
unreachable since −1 ≤ 1. -/
def marketNeutralAdjust (s : EFState) : EFState × List Warn :=
  if shortingPossible s.bounds then (s, [])
  else
    match make_valid_bounds s.n_assets (.single (some (-1)) (some 1)) with
    | .ok b => ({ s with bounds := b }, [.marketNeutralityRequiresShorting])
    | .error _ => (s, [.marketNeutralityRequiresShorting])

/-- The constraint list `efficient_risk` passes to the solver: the stored
constraints plus the target-risk equality, or — market neutral — exactly
the sum-to-zero equality plus the target-risk equality. -/
def efficient_risk_constraints (s : EFState) (t : PyFloat) (market_neutral : Bool) :
    List Constraint :=
  if market_neutral then [.sumTo0, .riskTarget t s.cov_matrix]
  else s.constraints ++ [.riskTarget t s.cov_matrix]

/-- The post-solve check of `efficient_risk`:
`np.isclose(volatility(w, cov), target_risk ** 2)`; false whenever the
target is non-finite (isclose against inf/nan is false). -/
def riskTargetMet (v : ℚ) : PyFloat → Bool
  | .finite t => npIsClose v (t * t)
  | _ => false

/-- The state/warnings pair after the optional market-neutral bound
fallback (the fallback runs only when `market_neutral` is true). -/
def marketNeutralPrep (s : EFState) (market_neutral : Bool) : EFState × List Warn :=
  if market_neutral then marketNeutralAdjust s else (s, [])

/-- Everything `efficient_risk` hands to `sco.minimize`: the
`negative_mean_return` objective with the stored expected returns, the
stored initial guess, the (possibly amended) stored bounds, and the
constraint list for the requested mode. -/
def efficient_risk_input (s : EFState) (mu : List ℚ) (t : PyFloat) (market_neutral : Bool) :
    SolverInput :=
  ⟨.negMeanReturn mu, (marketNeutralPrep s market_neutral).1.initial_guess,
   (marketNeutralPrep s market_neutral).1.bounds,
   efficient_risk_constraints s t market_neutral⟩

/-- Body of `efficient_risk` after argument validation (target already
known to be a float `t` with `t < 0` false, risk-free rate numeric,
`expected_returns` present). -/
def efficient_risk_go (s : EFState) (mu : List ℚ) (t : PyFloat) (market_neutral : Bool)
    (solver : SolverInput → List ℚ) : CallResult (List (Ticker × ℚ)) :=
  let x := solver (efficient_risk_input s mu t market_neutral)
  if riskTargetMet (volatility x s.cov_matrix 0) t then
    ⟨{ (marketNeutralPrep s market_neutral).1 with weights := some x },
     (marketNeutralPrep s market_neutral).2, .ok (zipDict s.tickers x)⟩
  else
    ⟨{ (marketNeutralPrep s market_neutral).1 with weights := some x },
     (marketNeutralPrep s market_neutral).2, .error .infeasibleIncreaseTargetRisk⟩

/-- `EfficientFrontier.efficient_risk`: rejects a `target_risk` that is
not a float or compares below zero, then a non-numeric risk-free rate;
reads `self.expected_returns` (AttributeError when unset), then runs
`efficient_risk_go`. -/
def efficient_risk (s : EFState) (target_risk rfr : PyVal) (market_neutral : Bool)
    (solver : SolverInput → List ℚ) : CallResult (List (Ticker × ℚ)) :=
  match target_risk with
  | .float t =>
    if t.ltZero then ⟨s, [], .error .valueError_targetRisk⟩
    else if rfr.isNumeric then
      match s.expected_returns with
      | none => ⟨s, [], .error .attributeError_expectedReturns⟩
      | some mu => efficient_risk_go s mu t market_neutral solver
    else ⟨s, [], .error .valueError_riskFreeRate⟩
  | _ => ⟨s, [], .error .valueError_targetRisk⟩

/-- The constraint list `efficient_return` passes to the solver. -/
def efficient_return_constraints (s : EFState) (t : PyFloat) (mu : List ℚ)
    (market_neutral : Bool) : List Constraint :=
  if market_neutral then [.sumTo0, .returnTarget t mu]
  else s.constraints ++ [.returnTarget t mu]

/-- The post-solve check of `efficient_return`:
`np.isclose(w.dot(mu), target_return)`; false for a non-finite target. -/
def returnTargetMet (d : ℚ) : PyFloat → Bool
  | .finite t => npIsClose d t
  | _ => false

/-- Everything `efficient_return` hands to `sco.minimize`: the
`volatility` objective with the stored covariance and gamma, the stored
initial guess, the (possibly amended) stored bounds, and the constraint
list for the requested mode. -/
def efficient_return_input (s : EFState) (mu : List ℚ) (t : PyFloat) (market_neutral : Bool) :
    SolverInput :=
  ⟨.volatilityObj s.cov_matrix s.gamma, (marketNeutralPrep s market_neutral).1.initial_guess,
   (marketNeutralPrep s market_neutral).1.bounds,
   efficient_return_constraints s t mu market_neutral⟩

/-- Body of `efficient_return` after argument validation. -/
def efficient_return_go (s : EFState) (mu : List ℚ) (t : PyFloat) (market_neutral : Bool)
    (solver : SolverInput → List ℚ) : CallResult (List (Ticker × ℚ)) :=
  let x := solver (efficient_return_input s mu t market_neutral)
  if returnTargetMet (dot x mu) t then
    ⟨{ (marketNeutralPrep s market_neutral).1 with weights := some x },
     (marketNeutralPrep s market_neutral).2, .ok (zipDict s.tickers x)⟩
  else
    ⟨{ (marketNeutralPrep s market_neutral).1 with weights := some x },
     (marketNeutralPrep s market_neutral).2, .error .infeasibleReduceTargetReturn⟩

/-- `EfficientFrontier.efficient_return`: rejects a `target_return` that
is not a float or compares below zero; reads `self.expected_returns`
(captured by the target constraint and read by the post-solve check),
then runs `efficient_return_go`. -/
def efficient_return (s : EFState) (target_return : PyVal) (market_neutral : Bool)
    (solver : SolverInput → List ℚ) : CallResult (List (Ticker × ℚ)) :=
  match target_return with
  | .float t =>
    if t.ltZero then ⟨s, [], .error .valueError_targetReturn⟩
    else
      match s.expected_returns with
      | none => ⟨s, [], .error .attributeError_expectedReturns⟩
      | some mu => efficient_return_go s mu t market_neutral solver
  | _ => ⟨s, [], .error .valueError_targetReturn⟩

/-- Modelled from the spec: `base_optimizer.portfolio_performance` (not
under `src/`); §4.5/§3: computes (expected return, volatility, Sharpe
ratio) from the last stored weight vector, the expected returns and the
covariance matrix, and raises when no weights have been computed yet.
The volatility reported is the spec's volatility function of §4.1
(the quadratic form; the display square root is not rational and the
claims do not depend on it), and the Sharpe value is
(return − risk-free rate) / volatility per the glossary. -/
def portfolio_performance (s : EFState) (rfr : ℚ) : Except PyErr (ℚ × ℚ × ℚ) :=
  match s.weights with
  | none => .error .valueError_weightsNotComputed
  | some w =>
    match s.expected_returns with
    | none => .error .attributeError_expectedReturns
    | some mu =>
      let ret := dot w mu
      let vol := volatility w s.cov_matrix 0
      .ok (ret, vol, (ret - rfr) / vol)

/-- A concrete two-asset instance used by the witnesses: covariance 2·I,
unit expected returns, long-only bounds, the state `EF_init` builds for
these inputs. -/
def sEx : EFState :=
  { n_assets := 2
    tickers := [.pos 0, .pos 1]
    bounds := [(some 0, some 1), (some 0, some 1)]
    cov_matrix := [[2, 0], [0, 2]]
    expected_returns := some [1, 1]
    gamma := .int 0
    initial_guess := [1 / 2, 1 / 2]
    constraints := [.sumTo1]
    weights := none }

/-- A solver oracle that terminates at the equal-weight point. -/
def solverHalf : SolverInput → List ℚ := fun _ => [1 / 2, 1 / 2]

/-- A single weight lies inside one asset's (min, max) pair up to a
tolerance; an absent end imposes no restriction. -/
def inBound (tol : ℚ) (b : Option ℚ × Option ℚ) (w : ℚ) : Bool :=
  (match b.1 with
   | some lo => decide (lo - tol ≤ w)
   | none => true) &&
  (match b.2 with
   | some hi => decide (w ≤ hi + tol)
   | none => true)

/-- Every weight lies inside its asset's bound pair up to a tolerance. -/
def withinBounds (tol : ℚ) (bs : List (Option ℚ × Option ℚ)) (x : List ℚ) : Bool :=
  (List.zip bs x).all (fun p => inBound tol p.1 p.2)

/-- Clamp one value into one bound pair. -/
def clampTo (b : Option ℚ × Option ℚ) (q : ℚ) : ℚ :=
  match b with
  | (some lo, some hi) => max lo (min hi q)
  | (some lo, none) => max lo q
  | (none, some hi) => min hi q
  | (none, none) => q

/-- Clamp a vector into a bound list entrywise, keeping its length. -/
def clampList : List (Option ℚ × Option ℚ) → List ℚ → List ℚ
  | b :: bs, q :: qs => clampTo b q :: clampList bs qs
  | [], qs => qs
  | _ :: _, [] => []

/-- A bound-respecting solver oracle: it terminates at the initial guess
clamped into the box bounds it was given. -/
def solverClamp : SolverInput → List ℚ :=
  fun inp => clampList inp.bounds inp.x0

/-- A concrete one-asset instance with a long-only bound and a negative
expected return. -/
def sOne : EFState :=
  { n_assets := 1
    tickers := [.pos 0]
    bounds := [(some 0, some 1)]
    cov_matrix := [[1]]
    expected_returns := some [-1]
    gamma := .int 0
    initial_guess := [1]
    constraints := [.sumTo1]
    weights := none }

theorem marketNeutralAdjust_eq (s : EFState) :
    marketNeutralAdjust s =
      if shortingPossible s.bounds then (s, [])
      else ({ s with bounds := List.replicate s.n_assets (some (-1), some 1) },
            [.marketNeutralityRequiresShorting]) := by
  unfold marketNeutralAdjust
  split
  · rfl
  · norm_num [make_valid_bounds, boundPairOk]

theorem marketNeutralPrep_fields (s : EFState) (mn : Bool) :
    (marketNeutralPrep s mn).1.n_assets = s.n_assets ∧
    (marketNeutralPrep s mn).1.tickers = s.tickers ∧
    (marketNeutralPrep s mn).1.cov_matrix = s.cov_matrix ∧
    (marketNeutralPrep s mn).1.expected_returns = s.expected_returns ∧
    (marketNeutralPrep s mn).1.gamma = s.gamma ∧
    (marketNeutralPrep s mn).1.initial_guess = s.initial_guess ∧
    (marketNeutralPrep s mn).1.constraints = s.constraints ∧
    (marketNeutralPrep s mn).1.weights = s.weights := by
  cases mn
  · simp [marketNeutralPrep]
  · simp only [marketNeutralPrep, marketNeutralAdjust_eq, if_true]
    split <;> simp

theorem efficient_risk_go_eq (s : EFState) (mu : List ℚ) (t : PyFloat) (mn : Bool)
    (solver : SolverInput → List ℚ) :
    efficient_risk_go s mu t mn solver =
      ⟨{ (marketNeutralPrep s mn).1 with
          weights := some (solver (efficient_risk_input s mu t mn)) },
       (marketNeutralPrep s mn).2,
       if riskTargetMet (volatility (solver (efficient_risk_input s mu t mn)) s.cov_matrix 0) t
       then .ok (zipDict s.tickers (solver (efficient_risk_input s mu t mn)))
       else .error .infeasibleIncreaseTargetRisk⟩ := by
  unfold efficient_risk_go
  split <;> simp_all

theorem efficient_return_go_eq (s : EFState) (mu : List ℚ) (t : PyFloat) (mn : Bool)
    (solver : SolverInput → List ℚ) :
    efficient_return_go s mu t mn solver =
      ⟨{ (marketNeutralPrep s mn).1 with
          weights := some (solver (efficient_return_input s mu t mn)) },
       (marketNeutralPrep s mn).2,
       if returnTargetMet (dot (solver (efficient_return_input s mu t mn)) mu) t
       then .ok (zipDict s.tickers (solver (efficient_return_input s mu t mn)))
       else .error .infeasibleReduceTargetReturn⟩ := by
  unfold efficient_return_go
  split <;> simp_all

theorem riskTargetMet_finite (v : ℚ) (t : PyFloat) (h : riskTargetMet v t = true) :
    ∃ q, t = .finite q ∧ npIsClose v (q * q) = true := by
  cases t with
  | finite q => exact ⟨q, rfl, h⟩
  | inf => exact absurd h (by simp [riskTargetMet])
  | ninf => exact absurd h (by simp [riskTargetMet])
  | nan => exact absurd h (by simp [riskTargetMet])

theorem returnTargetMet_finite (v : ℚ) (t : PyFloat) (h : returnTargetMet v t = true) :
    ∃ q, t = .finite q ∧ npIsClose v q = true := by
  cases t with
  | finite q => exact ⟨q, rfl, h⟩
  | inf => exact absurd h (by simp [returnTargetMet])
  | ninf => exact absurd h (by simp [returnTargetMet])
  | nan => exact absurd h (by simp [returnTargetMet])

theorem efficient_risk_go_out_cases (s : EFState) (mu : List ℚ) (t : PyFloat) (mn : Bool)
    (solver : SolverInput → List ℚ) :
    (efficient_risk_go s mu t mn solver).out =
        .ok (zipDict s.tickers (solver (efficient_risk_input s mu t mn))) ∨
    (efficient_risk_go s mu t mn solver).out = .error .infeasibleIncreaseTargetRisk := by
  rw [efficient_risk_go_eq]
  by_cases h :
      riskTargetMet (volatility (solver (efficient_risk_input s mu t mn)) s.cov_matrix 0) t
  · left
    simp [h]
  · right
    simp [h]

theorem efficient_return_go_out_cases (s : EFState) (mu : List ℚ) (t : PyFloat) (mn : Bool)
    (solver : SolverInput → List ℚ) :
    (efficient_return_go s mu t mn solver).out =
        .ok (zipDict s.tickers (solver (efficient_return_input s mu t mn))) ∨
    (efficient_return_go s mu t mn solver).out = .error .infeasibleReduceTargetReturn := by
  rw [efficient_return_go_eq]
  by_cases h : returnTargetMet (dot (solver (efficient_return_input s mu t mn)) mu) t
  · left
    simp [h]
  · right
    simp [h]

theorem marketNeutralPrep_true (s : EFState) :
    (shortingPossible s.bounds = true → marketNeutralPrep s true = (s, [])) ∧
    (shortingPossible s.bounds = false →
      marketNeutralPrep s true =
        ({ s with bounds := List.replicate s.n_assets (some (-1), some 1) },
         [.marketNeutralityRequiresShorting])) := by
  unfold marketNeutralPrep
  rw [marketNeutralAdjust_eq]
  constructor
  · intro h
    simp [h]
  · intro h
    simp [h]

theorem zipDict_shape (ts : List Ticker) (x : List ℚ) (h : ts.length = x.length) :
    (zipDict ts x).length = ts.length ∧ (zipDict ts x).map Prod.fst = ts ∧
    (zipDict ts x).map Prod.snd = x := by
  unfold zipDict
  refine ⟨by simp [h], List.map_fst_zip ts x (le_of_eq h), List.map_snd_zip ts x (ge_of_eq h)⟩

theorem EF_init_ok (er : ERInput) (cov : CovInput) (wb : BoundsInput) (g : PyVal)
    (ws : List Warn) (st : EFState) (h : EF_init er cov wb g = (ws, .ok st)) :
    st.constraints = [.sumTo1] ∧ st.weights = none ∧ st.cov_matrix = cov.rows ∧
    st.expected_returns = er.vec ∧ st.gamma = g ∧
    st.n_assets = st.tickers.length ∧
    st.initial_guess = List.replicate st.n_assets ((1 : ℚ) / (st.n_assets : ℚ)) ∧
    make_valid_bounds st.n_assets wb = .ok st.bounds ∧
    EF_tickers er cov = .ok st.tickers ∧
    ws = (if g.ltZero then [.gammaShouldBePositive] else []) ∧
    g.isNumeric = true := by
  unfold EF_init at h
  split at h
  · exact absurd h (by simp)
  rename_i tickers heq
  split at h
  · exact absurd h (by simp)
  rename_i bds hbds
  split at h
  · rw [Prod.ext_iff] at h
    obtain ⟨h1, h2⟩ := h
    rw [Except.ok.injEq] at h2
    subst h2
    refine ⟨rfl, rfl, rfl, rfl, rfl, rfl, rfl, hbds, heq, h1.symm, by assumption⟩
  · exact absurd h (by simp)

theorem clampList_length (bs : List (Option ℚ × Option ℚ)) (qs : List ℚ) :
    (clampList bs qs).length = qs.length := by
  induction bs generalizing qs with
  | nil => rfl
  | cons b bs ih =>
    cases qs with
    | nil => rfl
    | cons q qs => simp [clampList, ih]

theorem inBound_clampTo (tol : ℚ) (htol : 0 ≤ tol) (b : Option ℚ × Option ℚ)
    (hok : boundPairOk b = true) (q : ℚ) : inBound tol b (clampTo b q) = true := by
  obtain ⟨lo, hi⟩ := b
  cases lo with
  | none =>
    cases hi with
    | none => simp [inBound, clampTo]
    | some hi =>
      simp only [inBound, clampTo, Bool.and_eq_true, decide_eq_true_eq, Bool.true_and]
      calc min hi q ≤ hi := min_le_left hi q
        _ ≤ hi + tol := le_add_of_nonneg_right htol
  | some lo =>
    cases hi with
    | none =>
      simp only [inBound, clampTo, Bool.and_eq_true, decide_eq_true_eq, Bool.and_true]
      calc lo - tol ≤ lo := sub_le_self lo htol
        _ ≤ max lo q := le_max_left lo q
    | some hi =>
      have hlh : lo ≤ hi := by simpa [boundPairOk] using hok
      simp only [inBound, clampTo, Bool.and_eq_true, decide_eq_true_eq]
      constructor
      · calc lo - tol ≤ lo := sub_le_self lo htol
          _ ≤ max lo (min hi q) := le_max_left _ _
      · refine max_le ?_ ?_
        · exact hlh.trans (le_add_of_nonneg_right htol)
        · exact (min_le_left hi q).trans (le_add_of_nonneg_right htol)

theorem withinBounds_clampList (tol : ℚ) (htol : 0 ≤ tol) (bs : List (Option ℚ × Option ℚ))
    (qs : List ℚ) (hok : bs.all boundPairOk = true) :
    withinBounds tol bs (clampList bs qs) = true := by
  induction bs generalizing qs with
  | nil => simp [withinBounds]
  | cons b bs ih =>
    simp only [List.all_cons, Bool.and_eq_true] at hok
    cases qs with
    | nil => simp [withinBounds, clampList]
    | cons q qs =>
      simp only [withinBounds, clampList, List.zip_cons_cons, List.all_cons, Bool.and_eq_true]
      exact ⟨inBound_clampTo tol htol b hok.1 q, by simpa [withinBounds] using ih qs hok.2⟩

/-- C2: for every risk aversion δ > 0, `max_unconstrained_utility` stores
and returns exactly the output of the dense linear solve on the system
(δΣ)w = μ — a solution of that system whenever the solver returns one —
with the configured bounds and the regularisation parameter gamma having
no effect on the result; for every δ ≤ 0 it raises a `ValueError` before
computing anything, leaving the instance state untouched. -/
theorem max_unconstrained_utility_closed_form (s : EFState) (δ : ℚ)
    (lin : List (List ℚ) → List ℚ → List ℚ) :
    (δ ≤ 0 → max_unconstrained_utility s δ lin = ⟨s, [], .error .valueError_riskAversion⟩) ∧
    (∀ mu, 0 < δ → s.expected_returns = some mu →
      (max_unconstrained_utility s δ lin).state =
        { s with weights := some (lin (smulMat δ s.cov_matrix) mu) } ∧
      (max_unconstrained_utility s δ lin).out =
        .ok (zipDict s.tickers (lin (smulMat δ s.cov_matrix) mu)) ∧
      (∀ b2 g2, (max_unconstrained_utility { s with bounds := b2, gamma := g2 } δ lin).out =
          (max_unconstrained_utility s δ lin).out) ∧
      (matVec (smulMat δ s.cov_matrix) (lin (smulMat δ s.cov_matrix) mu) = mu →
        ∃ w, (max_unconstrained_utility s δ lin).state.weights = some w ∧
          matVec (smulMat δ s.cov_matrix) w = mu)) := by
  constructor
  · intro h
    simp [max_unconstrained_utility, h]
  · intro mu hδ her
    have h : ¬ δ ≤ 0 := not_le.mpr hδ
    refine ⟨by simp [max_unconstrained_utility, h, her], by simp [max_unconstrained_utility, h, her],
      by simp [max_unconstrained_utility, h, her], ?_⟩
    intro hsol
    refine ⟨lin (smulMat δ s.cov_matrix) mu, by simp [max_unconstrained_utility, h, her], hsol⟩

/-- Witness for C2: on the concrete instance `sEx` with δ = 1, the exact
solution [1/2, 1/2] of (1·Σ)w = μ is returned unchanged. -/
theorem max_unconstrained_utility_closed_form_witness :
    (0 : ℚ) < 1 ∧
    (max_unconstrained_utility sEx 1 (fun _ _ => [1 / 2, 1 / 2])).out =
      .ok [(Ticker.pos 0, 1 / 2), (Ticker.pos 1, 1 / 2)] ∧
    matVec (smulMat 1 sEx.cov_matrix) [1 / 2, 1 / 2] = [1, 1] := by
  have h := (max_unconstrained_utility_closed_form sEx 1 (fun _ _ => [1 / 2, 1 / 2])).2
    [1, 1] (by norm_num) rfl
  exact ⟨by norm_num, h.2.1.trans (by rfl),
    by norm_num [sEx, matVec, smulMat, smulRow, dot]⟩

/-- C6 counterexample: the integer target `1` is a non-negative finite
number, yet `efficient_risk` rejects it at validation (it is not a
Python float), contradicting the claim that validation passes for every
non-negative finite numeric target of any numeric kind. -/
theorem efficient_risk_rejects_int_target :
    efficient_risk sEx (.int 1) (.float (.finite (1 / 50))) false solverHalf =
      ⟨sEx, [], .error .valueError_targetRisk⟩ ∧
    (PyVal.int 1).isNumeric = true ∧ (PyVal.int 1).ltZero = false := by
  exact ⟨rfl, rfl, rfl⟩

/-- C6 (amended): `efficient_risk` raises the target validation error,
before any solve and with the state untouched, exactly when `target_risk`
is not a Python float or is a float comparing below zero; a non-float
numeric such as an int is rejected even when non-negative and finite,
while the non-finite floats `inf` and `nan` pass the validation. -/
theorem efficient_risk_validation (s : EFState) (tr rfr : PyVal) (mn : Bool)
    (solver : SolverInput → List ℚ) :
    (efficient_risk s tr rfr mn solver = ⟨s, [], .error .valueError_targetRisk⟩ ↔
      tr.isFloat = false ∨ tr.ltZero = true) ∧
    (PyVal.float .inf).isFloat = true ∧ (PyVal.float .inf).ltZero = false ∧
    (PyVal.float .nan).isFloat = true ∧ (PyVal.float .nan).ltZero = false ∧
    (∀ n : ℤ, (PyVal.int n).isFloat = false) := by
  refine ⟨⟨?_, ?_⟩, rfl, rfl, rfl, rfl, fun n => rfl⟩
  · intro h
    by_contra hc
    push_neg at hc
    obtain ⟨h1, h2⟩ := hc
    cases tr with
    | int n => exact h1 rfl
    | other => exact h1 rfl
    | float t =>
      have ht : t.ltZero = false := by
        cases hlt : t.ltZero
        · rfl
        · exact absurd (by simpa [PyVal.ltZero] using hlt) h2
      rw [efficient_risk] at h
      simp only [ht, Bool.false_eq_true, if_false] at h
      by_cases hn : rfr.isNumeric
      · rw [if_pos hn] at h
        cases her : s.expected_returns with
        | none =>
          rw [her] at h
          have := congrArg CallResult.out h
          simp at this
        | some mu =>
          rw [her] at h
          have hout := congrArg CallResult.out h
          rcases efficient_risk_go_out_cases s mu t mn solver with hc2 | hc2
          · rw [hc2] at hout
            simp at hout
          · rw [hc2] at hout
            simp at hout
      · rw [if_neg hn] at h
        have := congrArg CallResult.out h
        simp at this
  · intro h
    cases tr with
    | int n => rfl
    | other => rfl
    | float t =>
      have ht : t.ltZero = true := by
        rcases h with h | h
        · exact absurd h (by simp [PyVal.isFloat])
        · simpa [PyVal.ltZero] using h
      simp [efficient_risk, ht]

/-- Witness for C6 (amended): the non-finite float `inf` passes the
target validation on `sEx`. -/
theorem efficient_risk_validation_witness :
    efficient_risk sEx (.float .inf) (.int 0) false solverHalf ≠
      ⟨sEx, [], .error .valueError_targetRisk⟩ := by
  intro hc
  rcases (efficient_risk_validation sEx (.float .inf) (.int 0) false solverHalf).1.mp hc with
    h1 | h1
  · simp [PyVal.isFloat] at h1
  · simp [PyVal.ltZero, PyFloat.ltZero] at h1

/-- C9: given otherwise valid constructor arguments, construction raises
`ValueError` exactly for a non-numeric gamma; every numeric gamma —
including a negative one — is accepted and stored, a negative one
additionally surfacing a warning. -/
theorem EF_init_gamma (idx : List Ticker) (vals : List ℚ) (cov : CovInput)
    (wb : BoundsInput) (bds : List (Option ℚ × Option ℚ)) (g : PyVal)
    (hb : make_valid_bounds idx.length wb = .ok bds) :
    (g.isNumeric = false →
      EF_init (.series idx vals) cov wb g = ([], .error .valueError_gamma)) ∧
    (g.isNumeric = true → ∃ st : EFState,
      EF_init (.series idx vals) cov wb g =
        ((if g.ltZero then [.gammaShouldBePositive] else []), .ok st) ∧
      st.gamma = g ∧ st.weights = none) := by
  have htick : EF_tickers (.series idx vals) cov = .ok idx := by
    cases cov <;> rfl
  constructor
  · intro h
    simp [EF_init, htick, hb, h]
  · intro h
    refine ⟨{ n_assets := idx.length, tickers := idx, bounds := bds, cov_matrix := cov.rows,
              expected_returns := some vals, gamma := g,
              initial_guess := List.replicate idx.length ((1 : ℚ) / (idx.length : ℚ)),
              constraints := [.sumTo1], weights := none }, ?_, rfl, rfl⟩
    simp [EF_init, htick, hb, h, ERInput.vec]

/-- Witness for C9: gamma = −1.0 is numeric and negative; construction on
a one-asset universe succeeds with the warning surfaced and −1 stored. -/
theorem EF_init_gamma_witness :
    ∃ st : EFState,
      EF_init (.series [.label 0] [1]) (.array [[1]]) (.single (some 0) (some 1))
          (.float (.finite (-1))) =
        ([.gammaShouldBePositive], .ok st) ∧
      st.gamma = .float (.finite (-1)) ∧ st.weights = none := by
  obtain ⟨st, h1, h2, h3⟩ :=
    (EF_init_gamma [.label 0] [1] (.array [[1]]) (.single (some 0) (some 1))
      [(some 0, some 1)] (.float (.finite (-1))) (by rfl)).2 rfl
  refine ⟨st, ?_, h2, h3⟩
  simpa using h1

/-- C1: whenever a call to `efficient_risk` returns a weight mapping, the
stored weight vector satisfies `np.isclose(volatility(w, Σ), target_risk²)`
— no mapping missing the target beyond that tolerance is ever returned —
and a call that passes argument validation (and has expected returns set)
either returns such a mapping or raises the infeasibility error advising
the caller to increase the target. -/
theorem efficient_risk_target_met_or_infeasible (s : EFState) (tr rfr : PyVal) (mn : Bool)
    (solver : SolverInput → List ℚ) :
    (∀ d, (efficient_risk s tr rfr mn solver).out = .ok d →
      ∃ t x, tr = .float (.finite t) ∧
        (efficient_risk s tr rfr mn solver).state.weights = some x ∧
        d = zipDict s.tickers x ∧
        npIsClose (volatility x s.cov_matrix 0) (t * t) = true) ∧
    (∀ t mu, tr = .float t → t.ltZero = false → rfr.isNumeric = true →
      s.expected_returns = some mu →
      ((∃ d, (efficient_risk s tr rfr mn solver).out = .ok d) ∨
       (efficient_risk s tr rfr mn solver).out = .error .infeasibleIncreaseTargetRisk)) := by
  constructor
  · intro d h
    cases tr with
    | int n => exact absurd h (by simp [efficient_risk])
    | other => exact absurd h (by simp [efficient_risk])
    | float t =>
      by_cases ht : t.ltZero = true
      · rw [efficient_risk, if_pos ht] at h
        simp at h
      · by_cases hn : rfr.isNumeric = true
        · cases her : s.expected_returns with
          | none =>
            rw [efficient_risk, if_neg ht, if_pos hn, her] at h
            simp at h
          | some mu =>
            have heq : efficient_risk s (.float t) rfr mn solver =
                efficient_risk_go s mu t mn solver := by
              rw [efficient_risk, if_neg ht, if_pos hn, her]
            rw [heq, efficient_risk_go_eq] at h ⊢
            dsimp only at h ⊢
            split at h
            · rename_i hmet
              rw [Except.ok.injEq] at h
              obtain ⟨q, htq, hcl⟩ := riskTargetMet_finite _ _ hmet
              subst htq
              exact ⟨q, solver (efficient_risk_input s mu (.finite q) mn), rfl, rfl,
                h.symm, hcl⟩
            · simp at h
        · rw [efficient_risk, if_neg ht, if_neg hn] at h
          simp at h
  · intro t mu htr ht hn her
    subst htr
    have heq : efficient_risk s (.float t) rfr mn solver =
        efficient_risk_go s mu t mn solver := by
      rw [efficient_risk, if_neg (by simp [ht]), if_pos hn, her]
    rw [heq]
    rcases efficient_risk_go_out_cases s mu t mn solver with hc | hc
    · exact .inl ⟨_, hc⟩
    · exact .inr hc

/-- Witness for C1: the run of `efficient_risk` on `sEx` with target 1
returns the equal-weight mapping, whose volatility 1 meets the target
1² within tolerance. -/
theorem efficient_risk_target_met_or_infeasible_witness :
    ∃ t x, (PyVal.float (.finite 1) : PyVal) = .float (.finite t) ∧
      (efficient_risk sEx (.float (.finite 1)) (.float (.finite (1 / 50))) false
          solverHalf).state.weights = some x ∧
      zipDict sEx.tickers [1 / 2, 1 / 2] = zipDict sEx.tickers x ∧
      npIsClose (volatility x sEx.cov_matrix 0) (t * t) = true := by
  have heq : efficient_risk sEx (.float (.finite 1)) (.float (.finite (1 / 50))) false
      solverHalf = efficient_risk_go sEx [1, 1] (.finite 1) false solverHalf := by
    rw [efficient_risk, if_neg (by norm_num [PyFloat.ltZero]), if_pos (by rfl)]
    rfl
  have hmet : riskTargetMet
      (volatility (solverHalf (efficient_risk_input sEx [1, 1] (.finite 1) false))
        sEx.cov_matrix 0) (.finite 1) = true := by
    norm_num [solverHalf, riskTargetMet, npIsClose, volatility, quadForm, sqNorm, matVec,
      dot, sEx]
  have hOk : (efficient_risk sEx (.float (.finite 1)) (.float (.finite (1 / 50))) false
      solverHalf).out = .ok (zipDict sEx.tickers [1 / 2, 1 / 2]) := by
    rw [heq, efficient_risk_go_eq]
    dsimp only
    rw [if_pos hmet]
    rfl
  obtain ⟨t, x, h1, h2, h3, h4⟩ :=
    (efficient_risk_target_met_or_infeasible sEx (.float (.finite 1))
      (.float (.finite (1 / 50))) false solverHalf).1 _ hOk
  exact ⟨t, x, h1, h2, by rw [h3], h4⟩

/-- C3: whenever a call to `efficient_return` returns a weight mapping,
the stored weight vector satisfies `np.isclose(w·μ, target_return)` — no
mapping missing the target beyond that tolerance is ever returned — and a
call that passes argument validation (and has expected returns set)
either returns such a mapping or raises the infeasibility error advising
the caller to reduce the target. -/
theorem efficient_return_target_met_or_infeasible (s : EFState) (tr : PyVal) (mn : Bool)
    (solver : SolverInput → List ℚ) :
    (∀ d, (efficient_return s tr mn solver).out = .ok d →
      ∃ t x mu, tr = .float (.finite t) ∧ s.expected_returns = some mu ∧
        (efficient_return s tr mn solver).state.weights = some x ∧
        d = zipDict s.tickers x ∧
        npIsClose (dot x mu) t = true) ∧
    (∀ t mu, tr = .float t → t.ltZero = false → s.expected_returns = some mu →
      ((∃ d, (efficient_return s tr mn solver).out = .ok d) ∨
       (efficient_return s tr mn solver).out = .error .infeasibleReduceTargetReturn)) := by
  constructor
  · intro d h
    cases tr with
    | int n => exact absurd h (by simp [efficient_return])
    | other => exact absurd h (by simp [efficient_return])
    | float t =>
      by_cases ht : t.ltZero = true
      · rw [efficient_return, if_pos ht] at h
        simp at h
      · cases her : s.expected_returns with
        | none =>
          rw [efficient_return, if_neg ht, her] at h
          simp at h
        | some mu =>
          have heq : efficient_return s (.float t) mn solver =
              efficient_return_go s mu t mn solver := by
            rw [efficient_return, if_neg ht, her]
          rw [heq, efficient_return_go_eq] at h ⊢
          dsimp only at h ⊢
          split at h
          · rename_i hmet
            rw [Except.ok.injEq] at h
            obtain ⟨q, htq, hcl⟩ := returnTargetMet_finite _ _ hmet
            subst htq
            exact ⟨q, solver (efficient_return_input s mu (.finite q) mn), mu, rfl, rfl,
              rfl, h.symm, hcl⟩
          · simp at h
  · intro t mu htr ht her
    subst htr
    have heq : efficient_return s (.float t) mn solver =
        efficient_return_go s mu t mn solver := by
      rw [efficient_return, if_neg (by simp [ht]), her]
    rw [heq]
    rcases efficient_return_go_out_cases s mu t mn solver with hc | hc
    · exact .inl ⟨_, hc⟩
    · exact .inr hc

/-- Witness for C3: the run of `efficient_return` on `sEx` with target 1
returns the equal-weight mapping, whose expected return 1 meets the
target within tolerance. -/
theorem efficient_return_target_met_or_infeasible_witness :
    ∃ t x mu, (PyVal.float (.finite 1) : PyVal) = .float (.finite t) ∧
      sEx.expected_returns = some mu ∧
      (efficient_return sEx (.float (.finite 1)) false solverHalf).state.weights = some x ∧
      zipDict sEx.tickers [1 / 2, 1 / 2] = zipDict sEx.tickers x ∧
      npIsClose (dot x mu) t = true := by
  have heq : efficient_return sEx (.float (.finite 1)) false solverHalf =
      efficient_return_go sEx [1, 1] (.finite 1) false solverHalf := by
    rw [efficient_return, if_neg (by norm_num [PyFloat.ltZero])]
    rfl
  have hmet : returnTargetMet
      (dot (solverHalf (efficient_return_input sEx [1, 1] (.finite 1) false)) [1, 1])
      (.finite 1) = true := by
    norm_num [solverHalf, returnTargetMet, npIsClose, dot]
  have hOk : (efficient_return sEx (.float (.finite 1)) false solverHalf).out =
      .ok (zipDict sEx.tickers [1 / 2, 1 / 2]) := by
    rw [heq, efficient_return_go_eq]
    dsimp only
    rw [if_pos hmet]
    rfl
  obtain ⟨t, x, mu, h1, h2, h3, h4, h5⟩ :=
    (efficient_return_target_met_or_infeasible sEx (.float (.finite 1)) false solverHalf).1
      _ hOk
  exact ⟨t, x, mu, h1, h2, h3, by rw [h4], h5⟩

theorem portfolio_performance_some (st : EFState) (w mu : List ℚ) (rq : ℚ)
    (hw : st.weights = some w) (he : st.expected_returns = some mu) :
    portfolio_performance st rq =
      .ok (dot w mu, volatility w st.cov_matrix 0,
           (dot w mu - rq) / volatility w st.cov_matrix 0) := by
  unfold portfolio_performance
  rw [hw, he]

/-- C4: with valid arguments, both `efficient_risk` and `efficient_return`
hand the solver, when not market neutral, the stored constraint list (the
default budget constraint Σw = 1 set at construction) with the target
equality constraint appended, and, when market neutral, exactly the
sum-to-zero equality together with the target equality constraint — the
Σw = 1 budget constraint is replaced, not kept alongside. -/
theorem solver_constraint_sets (s : EFState) (t : PyFloat) (mu : List ℚ)
    (tr rfr : PyVal) (solver : SolverInput → List ℚ)
    (htr : tr = .float t) (ht : t.ltZero = false) (hrfr : rfr.isNumeric = true)
    (her : s.expected_returns = some mu) :
    ((efficient_risk s tr rfr false solver).state.weights =
      some (solver ⟨.negMeanReturn mu, s.initial_guess, s.bounds,
                    s.constraints ++ [.riskTarget t s.cov_matrix]⟩)) ∧
    ((efficient_risk s tr rfr true solver).state.weights =
      some (solver ⟨.negMeanReturn mu, s.initial_guess,
                    (marketNeutralPrep s true).1.bounds,
                    [.sumTo0, .riskTarget t s.cov_matrix]⟩)) ∧
    ((efficient_return s tr false solver).state.weights =
      some (solver ⟨.volatilityObj s.cov_matrix s.gamma, s.initial_guess, s.bounds,
                    s.constraints ++ [.returnTarget t mu]⟩)) ∧
    ((efficient_return s tr true solver).state.weights =
      some (solver ⟨.volatilityObj s.cov_matrix s.gamma, s.initial_guess,
                    (marketNeutralPrep s true).1.bounds,
                    [.sumTo0, .returnTarget t mu]⟩)) ∧
    (∀ er cov wb g ws st, EF_init er cov wb g = (ws, .ok st) →
      st.constraints = [Constraint.sumTo1]) ∧
    (∀ w, evalConstraint .sumTo1 w = listSum w - 1 ∧ evalConstraint .sumTo0 w = listSum w) := by
  subst htr
  have heqR : ∀ mn, efficient_risk s (.float t) rfr mn solver =
      efficient_risk_go s mu t mn solver := by
    intro mn
    rw [efficient_risk, if_neg (by simp [ht]), if_pos hrfr, her]
  have heqE : ∀ mn, efficient_return s (.float t) mn solver =
      efficient_return_go s mu t mn solver := by
    intro mn
    rw [efficient_return, if_neg (by simp [ht]), her]
  have hig := (marketNeutralPrep_fields s true).2.2.2.2.2.1
  refine ⟨?_, ?_, ?_, ?_,
    fun er cov wb g ws st h => (EF_init_ok er cov wb g ws st h).1,
    fun w => ⟨rfl, rfl⟩⟩
  · rw [heqR false, efficient_risk_go_eq]
    rfl
  · rw [heqR true, efficient_risk_go_eq]
    dsimp only
    rw [show efficient_risk_input s mu t true =
      ⟨.negMeanReturn mu, s.initial_guess, (marketNeutralPrep s true).1.bounds,
       [.sumTo0, .riskTarget t s.cov_matrix]⟩ by
        rw [efficient_risk_input, hig]
        rfl]
  · rw [heqE false, efficient_return_go_eq]
    rfl
  · rw [heqE true, efficient_return_go_eq]
    dsimp only
    rw [show efficient_return_input s mu t true =
      ⟨.volatilityObj s.cov_matrix s.gamma, s.initial_guess,
       (marketNeutralPrep s true).1.bounds, [.sumTo0, .returnTarget t mu]⟩ by
        rw [efficient_return_input, hig]
        rfl]

/-- Witness for C4: on `sEx` (not market neutral) the solver receives the
stored budget constraint plus the risk target, and the solver output is
stored. -/
theorem solver_constraint_sets_witness :
    (efficient_risk sEx (.float (.finite 1)) (.float (.finite (1 / 50))) false
        solverHalf).state.weights = some [1 / 2, 1 / 2] ∧
    sEx.constraints ++ [.riskTarget (.finite 1) sEx.cov_matrix] =
      [.sumTo1, .riskTarget (.finite 1) sEx.cov_matrix] := by
  have h := (solver_constraint_sets sEx (.finite 1) [1, 1] (.float (.finite 1))
    (.float (.finite (1 / 50))) solverHalf rfl (by norm_num [PyFloat.ltZero]) rfl rfl).1
  exact ⟨h.trans (by rfl), by rfl⟩

/-- C5: with market_neutral=true and valid arguments, if at least one
stored lower bound is negative both methods leave the stored bounds
unchanged (no warning); otherwise they overwrite the stored bounds with
(−1, 1) for every asset and surface the warning — a mutation that
persists in the post-call state — while every other stored field
(expected returns, covariance matrix, gamma, tickers, asset count,
initial guess, constraints) is unmodified. -/
theorem market_neutral_bounds_mutation (s : EFState) (tr rfr : PyVal) (t : PyFloat)
    (mu : List ℚ) (solver : SolverInput → List ℚ)
    (htr : tr = .float t) (ht : t.ltZero = false) (hrfr : rfr.isNumeric = true)
    (her : s.expected_returns = some mu) :
    (shortingPossible s.bounds = true →
      (efficient_risk s tr rfr true solver).state.bounds = s.bounds ∧
      (efficient_risk s tr rfr true solver).warns = [] ∧
      (efficient_return s tr true solver).state.bounds = s.bounds ∧
      (efficient_return s tr true solver).warns = []) ∧
    (shortingPossible s.bounds = false →
      (efficient_risk s tr rfr true solver).state.bounds =
        List.replicate s.n_assets (some (-1), some 1) ∧
      (efficient_risk s tr rfr true solver).warns = [.marketNeutralityRequiresShorting] ∧
      (efficient_return s tr true solver).state.bounds =
        List.replicate s.n_assets (some (-1), some 1) ∧
      (efficient_return s tr true solver).warns = [.marketNeutralityRequiresShorting]) ∧
    ((efficient_risk s tr rfr true solver).state.expected_returns = s.expected_returns ∧
     (efficient_risk s tr rfr true solver).state.cov_matrix = s.cov_matrix ∧
     (efficient_risk s tr rfr true solver).state.gamma = s.gamma ∧
     (efficient_risk s tr rfr true solver).state.tickers = s.tickers ∧
     (efficient_risk s tr rfr true solver).state.n_assets = s.n_assets ∧
     (efficient_risk s tr rfr true solver).state.initial_guess = s.initial_guess ∧
     (efficient_risk s tr rfr true solver).state.constraints = s.constraints) ∧
    ((efficient_return s tr true solver).state.expected_returns = s.expected_returns ∧
     (efficient_return s tr true solver).state.cov_matrix = s.cov_matrix ∧
     (efficient_return s tr true solver).state.gamma = s.gamma ∧
     (efficient_return s tr true solver).state.tickers = s.tickers ∧
     (efficient_return s tr true solver).state.n_assets = s.n_assets ∧
     (efficient_return s tr true solver).state.initial_guess = s.initial_guess ∧
     (efficient_return s tr true solver).state.constraints = s.constraints) := by
  subst htr
  have heqR : efficient_risk s (.float t) rfr true solver =
      efficient_risk_go s mu t true solver := by
    rw [efficient_risk, if_neg (by simp [ht]), if_pos hrfr, her]
  have heqE : efficient_return s (.float t) true solver =
      efficient_return_go s mu t true solver := by
    rw [efficient_return, if_neg (by simp [ht]), her]
  rw [heqR, heqE, efficient_risk_go_eq, efficient_return_go_eq]
  dsimp only
  obtain ⟨hp1, hp2⟩ := marketNeutralPrep_true s
  have hf := marketNeutralPrep_fields s true
  refine ⟨?_, ?_, ?_, ?_⟩
  · intro h
    rw [hp1 h]
    exact ⟨rfl, rfl, rfl, rfl⟩
  · intro h
    rw [hp2 h]
    exact ⟨rfl, rfl, rfl, rfl⟩
  · exact ⟨hf.2.2.2.1, hf.2.2.1, hf.2.2.2.2.1, hf.2.1, hf.1, hf.2.2.2.2.2.1,
      hf.2.2.2.2.2.2.1⟩
  · exact ⟨hf.2.2.2.1, hf.2.2.1, hf.2.2.2.2.1, hf.2.1, hf.1, hf.2.2.2.2.2.1,
      hf.2.2.2.2.2.2.1⟩

/-- Witness for C5: `sEx` has long-only bounds, so the market-neutral run
overwrites them with (−1, 1) for both assets, surfaces the warning, and
leaves gamma and the tickers unchanged. -/
theorem market_neutral_bounds_mutation_witness :
    (efficient_risk sEx (.float (.finite 1)) (.float (.finite (1 / 50))) true
        solverHalf).state.bounds = [(some (-1), some 1), (some (-1), some 1)] ∧
    (efficient_risk sEx (.float (.finite 1)) (.float (.finite (1 / 50))) true
        solverHalf).warns = [.marketNeutralityRequiresShorting] ∧
    (efficient_risk sEx (.float (.finite 1)) (.float (.finite (1 / 50))) true
        solverHalf).state.gamma = sEx.gamma ∧
    (efficient_risk sEx (.float (.finite 1)) (.float (.finite (1 / 50))) true
        solverHalf).state.tickers = sEx.tickers := by
  have h := market_neutral_bounds_mutation sEx (.float (.finite 1))
    (.float (.finite (1 / 50))) (.finite 1) [1, 1] solverHalf rfl
    (by norm_num [PyFloat.ltZero]) rfl rfl
  obtain ⟨h1, h2, _, _⟩ := h.2.1 (by rfl)
  exact ⟨h1.trans (by rfl), h2, h.2.2.1.2.2.1, h.2.2.1.2.2.2.1⟩

/-- C10: when the post-solve infeasibility error is raised by
`efficient_risk` or `efficient_return`, the solver's rejected output has
already been stored as the instance's weights — the failure is not
atomic — and a subsequent `portfolio_performance` on the same state
computes its metrics from that rejected vector. -/
theorem infeasibility_error_not_atomic (s : EFState) (tr rfr : PyVal) (t : PyFloat)
    (mu : List ℚ) (mn : Bool) (solver : SolverInput → List ℚ) (rq : ℚ)
    (htr : tr = .float t) (ht : t.ltZero = false) (hrfr : rfr.isNumeric = true)
    (her : s.expected_returns = some mu) :
    ((efficient_risk s tr rfr mn solver).out = .error .infeasibleIncreaseTargetRisk →
      (efficient_risk s tr rfr mn solver).state.weights =
        some (solver (efficient_risk_input s mu t mn)) ∧
      riskTargetMet (volatility (solver (efficient_risk_input s mu t mn)) s.cov_matrix 0) t
        = false ∧
      portfolio_performance (efficient_risk s tr rfr mn solver).state rq =
        .ok (dot (solver (efficient_risk_input s mu t mn)) mu,
             volatility (solver (efficient_risk_input s mu t mn)) s.cov_matrix 0,
             (dot (solver (efficient_risk_input s mu t mn)) mu - rq) /
               volatility (solver (efficient_risk_input s mu t mn)) s.cov_matrix 0)) ∧
    ((efficient_return s tr mn solver).out = .error .infeasibleReduceTargetReturn →
      (efficient_return s tr mn solver).state.weights =
        some (solver (efficient_return_input s mu t mn)) ∧
      returnTargetMet (dot (solver (efficient_return_input s mu t mn)) mu) t = false ∧
      portfolio_performance (efficient_return s tr mn solver).state rq =
        .ok (dot (solver (efficient_return_input s mu t mn)) mu,
             volatility (solver (efficient_return_input s mu t mn)) s.cov_matrix 0,
             (dot (solver (efficient_return_input s mu t mn)) mu - rq) /
               volatility (solver (efficient_return_input s mu t mn)) s.cov_matrix 0)) := by
  subst htr
  have hf := marketNeutralPrep_fields s mn
  have heqR : efficient_risk s (.float t) rfr mn solver =
      efficient_risk_go s mu t mn solver := by
    rw [efficient_risk, if_neg (by simp [ht]), if_pos hrfr, her]
  have heqE : efficient_return s (.float t) mn solver =
      efficient_return_go s mu t mn solver := by
    rw [efficient_return, if_neg (by simp [ht]), her]
  constructor
  · rw [heqR, efficient_risk_go_eq]
    dsimp only
    intro hout
    split at hout
    · exact absurd hout (by simp)
    rename_i hmet
    have hmet' : riskTargetMet
        (volatility (solver (efficient_risk_input s mu t mn)) s.cov_matrix 0) t = false := by
      simpa using hmet
    refine ⟨rfl, hmet', ?_⟩
    rw [portfolio_performance_some _ (solver (efficient_risk_input s mu t mn)) mu rq rfl
      (by dsimp only; rw [hf.2.2.2.1, her])]
    dsimp only
    rw [hf.2.2.1]
  · rw [heqE, efficient_return_go_eq]
    dsimp only
    intro hout
    split at hout
    · exact absurd hout (by simp)
    rename_i hmet
    have hmet' : returnTargetMet (dot (solver (efficient_return_input s mu t mn)) mu) t
        = false := by
      simpa using hmet
    refine ⟨rfl, hmet', ?_⟩
    rw [portfolio_performance_some _ (solver (efficient_return_input s mu t mn)) mu rq rfl
      (by dsimp only; rw [hf.2.2.2.1, her])]
    dsimp only
    rw [hf.2.2.1]

/-- Witness for C10: on `sEx` with the unreachable target 2,
`efficient_risk` raises the infeasibility error while the rejected
equal-weight vector is already stored, and `portfolio_performance` then
reports the metrics (1, 1, 1) computed from that rejected vector. -/
theorem infeasibility_error_not_atomic_witness :
    (efficient_risk sEx (.float (.finite 2)) (.float (.finite (1 / 50))) false
        solverHalf).out = .error .infeasibleIncreaseTargetRisk ∧
    (efficient_risk sEx (.float (.finite 2)) (.float (.finite (1 / 50))) false
        solverHalf).state.weights = some [1 / 2, 1 / 2] ∧
    portfolio_performance (efficient_risk sEx (.float (.finite 2))
        (.float (.finite (1 / 50))) false solverHalf).state 0 = .ok (1, 1, 1) := by
  have hmetF : riskTargetMet
      (volatility (solverHalf (efficient_risk_input sEx [1, 1] (.finite 2) false))
        sEx.cov_matrix 0) (.finite 2) = false := by
    norm_num [solverHalf, riskTargetMet, npIsClose, volatility, quadForm, sqNorm, matVec,
      dot, sEx]
  have heq : efficient_risk sEx (.float (.finite 2)) (.float (.finite (1 / 50))) false
      solverHalf = efficient_risk_go sEx [1, 1] (.finite 2) false solverHalf := by
    rw [efficient_risk, if_neg (by norm_num [PyFloat.ltZero]), if_pos (by rfl)]
    rfl
  have herr : (efficient_risk sEx (.float (.finite 2)) (.float (.finite (1 / 50))) false
      solverHalf).out = .error .infeasibleIncreaseTargetRisk := by
    rw [heq, efficient_risk_go_eq]
    dsimp only
    rw [if_neg (by simp [hmetF])]
  obtain ⟨h1, h2, h3⟩ := (infeasibility_error_not_atomic sEx (.float (.finite 2))
    (.float (.finite (1 / 50))) (.finite 2) [1, 1] false solverHalf 0 rfl
    (by norm_num [PyFloat.ltZero]) rfl rfl).1 herr
  refine ⟨herr, h1.trans (by rfl), h3.trans ?_⟩
  norm_num [solverHalf, dot, volatility, quadForm, sqNorm, matVec, sEx]

/-- C7 (code bug at `expected_returns=None` with an array covariance): the
ticker fallback `list(range(len(expected_returns)))` evaluates `len(None)`
and raises `TypeError`, so construction fails although the constructor
documents both inputs as accepted; every other documented combination
succeeds with the documented ticker derivation (Series index first, else
DataFrame columns, else the positional indices 0..N−1), and the derived
tickers key the returned weight mappings. -/
theorem EF_init_ticker_derivation :
    EF_init .nothing (.array [[1, 0], [0, 1]]) (.single (some 0) (some 1)) (.int 0) =
      ([], .error .typeError_lenOfNone) ∧
    (∃ ws st, EF_init (.series [.label 3, .label 7] [1, 2]) (.dataframe [.label 0] [[1]])
        (.single (some 0) (some 1)) (.int 0) = (ws, .ok st) ∧
      st.tickers = [.label 3, .label 7]) ∧
    (∃ ws st, EF_init .nothing (.dataframe [.label 4, .label 5] [[1, 0], [0, 1]])
        (.single (some 0) (some 1)) (.int 0) = (ws, .ok st) ∧
      st.tickers = [.label 4, .label 5]) ∧
    (∃ ws st, EF_init (.pylist [1, 2]) (.array [[1, 0], [0, 1]])
        (.single (some 0) (some 1)) (.int 0) = (ws, .ok st) ∧
      st.tickers = [.pos 0, .pos 1]) ∧
    (∃ ws st, EF_init (.array [1, 2]) (.array [[1, 0], [0, 1]])
        (.single (some 0) (some 1)) (.int 0) = (ws, .ok st) ∧
      st.tickers = [.pos 0, .pos 1]) ∧
    (∀ s x, (min_volatility s (fun _ => x)).out = .ok (zipDict s.tickers x)) := by
  refine ⟨rfl, ⟨[], _, rfl, rfl⟩, ⟨[], _, rfl, rfl⟩, ⟨[], _, rfl, rfl⟩, ⟨[], _, rfl, rfl⟩,
    fun s x => rfl⟩

/-- C8 counterexample: on the one-asset instance `sOne` with configured
bounds (0, 1), `max_unconstrained_utility` succeeds and returns weight −1
(the exact solution of the linear system (1·Σ)w = μ), which lies below
the configured lower bound by a full unit — far beyond any solver
tolerance — so not every successful method keeps weights within the
configured bounds. -/
theorem max_unconstrained_utility_ignores_bounds :
    matVec (smulMat 1 sOne.cov_matrix) [-1] = [-1] ∧
    sOne.expected_returns = some [-1] ∧
    sOne.bounds = [(some 0, some 1)] ∧
    (max_unconstrained_utility sOne 1 (fun _ _ => [-1])).out =
      .ok [(Ticker.pos 0, -1)] ∧
    ((-1 : ℚ) < 0 - 1 / 2) := by
  exact ⟨by norm_num [matVec, smulMat, smulRow, dot, sOne], rfl, rfl, rfl, by norm_num⟩

theorem replicate_bounds_ok (n : ℕ) :
    (List.replicate n ((some (-1 : ℚ), some (1 : ℚ)))).all boundPairOk = true := by
  rw [List.all_eq_true]
  intro x hx
  rw [List.eq_of_mem_replicate hx]
  norm_num [boundPairOk]

theorem marketNeutralPrep_bounds_ok (s : EFState) (mn : Bool)
    (hok : s.bounds.all boundPairOk = true) :
    ((marketNeutralPrep s mn).1).bounds.all boundPairOk = true := by
  cases mn
  · simpa [marketNeutralPrep] using hok
  · simp only [marketNeutralPrep, marketNeutralAdjust_eq, if_true]
    split
    · simpa using hok
    · simpa using replicate_bounds_ok s.n_assets

theorem dict_core (ts : List Ticker) (x : List ℚ) (n : ℕ)
    (htk : ts.length = n) (hx : x.length = n) (hnd : ts.Nodup) :
    (zipDict ts x).length = n ∧ (zipDict ts x).map Prod.fst = ts ∧
    ((zipDict ts x).map Prod.fst).Nodup ∧ (zipDict ts x).map Prod.snd = x := by
  obtain ⟨h1, h2, h3⟩ := zipDict_shape ts x (htk.trans hx.symm)
  exact ⟨h1.trans htk, h2, by rw [h2]; exact hnd, h3⟩

/-- C8 (amended): every successful optimisation method returns a mapping
with exactly one entry per asset — length N and keys equal to the tickers
in stored order (distinct since the tickers are) — and, for the five
methods that use the iterative solver, whenever the solver respects the
well-formed box bounds it is handed (up to a tolerance), every returned
weight lies within the asset's configured, post-call stored bounds up to
that tolerance; `max_unconstrained_utility` ignores bounds entirely, so
only the shape guarantee holds for it. -/
theorem returned_mapping_shape_and_bounds (s : EFState) (tol : ℚ)
    (solver : SolverInput → List ℚ)
    (htk : s.tickers.length = s.n_assets)
    (hig : s.initial_guess.length = s.n_assets)
    (hnd : s.tickers.Nodup)
    (hok : s.bounds.all boundPairOk = true)
    (hlen : ∀ inp, (solver inp).length = inp.x0.length)
    (hbnd : ∀ inp, inp.bounds.all boundPairOk = true →
      withinBounds tol inp.bounds (solver inp) = true) :
    (∀ rfr d, (max_sharpe s rfr solver).out = .ok d →
      d.length = s.n_assets ∧ d.map Prod.fst = s.tickers ∧ (d.map Prod.fst).Nodup ∧
      withinBounds tol (max_sharpe s rfr solver).state.bounds (d.map Prod.snd) = true) ∧
    (∀ d, (min_volatility s solver).out = .ok d →
      d.length = s.n_assets ∧ d.map Prod.fst = s.tickers ∧ (d.map Prod.fst).Nodup ∧
      withinBounds tol (min_volatility s solver).state.bounds (d.map Prod.snd) = true) ∧
    (∀ d, (custom_objective s solver).out = .ok d →
      d.length = s.n_assets ∧ d.map Prod.fst = s.tickers ∧ (d.map Prod.fst).Nodup ∧
      withinBounds tol (custom_objective s solver).state.bounds (d.map Prod.snd) = true) ∧
    (∀ tr rfr mn d, (efficient_risk s tr rfr mn solver).out = .ok d →
      d.length = s.n_assets ∧ d.map Prod.fst = s.tickers ∧ (d.map Prod.fst).Nodup ∧
      withinBounds tol (efficient_risk s tr rfr mn solver).state.bounds (d.map Prod.snd)
        = true) ∧
    (∀ tr mn d, (efficient_return s tr mn solver).out = .ok d →
      d.length = s.n_assets ∧ d.map Prod.fst = s.tickers ∧ (d.map Prod.fst).Nodup ∧
      withinBounds tol (efficient_return s tr mn solver).state.bounds (d.map Prod.snd)
        = true) ∧
    (∀ δ (lin : List (List ℚ) → List ℚ → List ℚ) d,
      (∀ A b, (lin A b).length = s.n_assets) →
      (max_unconstrained_utility s δ lin).out = .ok d →
      d.length = s.n_assets ∧ d.map Prod.fst = s.tickers ∧ (d.map Prod.fst).Nodup) := by
  refine ⟨?_, ?_, ?_, ?_, ?_, ?_⟩
  · intro rfr d h
    by_cases hn : rfr.isNumeric = true
    · cases her : s.expected_returns with
      | none =>
        rw [max_sharpe, if_pos hn, her] at h
        simp at h
      | some mu =>
        have heq : max_sharpe s rfr solver =
            ⟨{ s with weights := some (solver ⟨.negSharpe mu s.cov_matrix s.gamma rfr,
                s.initial_guess, s.bounds, s.constraints⟩) }, [],
             .ok (zipDict s.tickers (solver ⟨.negSharpe mu s.cov_matrix s.gamma rfr,
                s.initial_guess, s.bounds, s.constraints⟩))⟩ := by
          rw [max_sharpe, if_pos hn, her]
        rw [heq] at h ⊢
        dsimp only at h ⊢
        rw [Except.ok.injEq] at h
        subst h
        obtain ⟨d1, d2, d3, d4⟩ := dict_core s.tickers _ s.n_assets htk
          ((hlen ⟨.negSharpe mu s.cov_matrix s.gamma rfr, s.initial_guess, s.bounds,
            s.constraints⟩).trans hig) hnd
        refine ⟨d1, d2, d3, ?_⟩
        rw [d4]
        exact hbnd ⟨.negSharpe mu s.cov_matrix s.gamma rfr, s.initial_guess, s.bounds,
          s.constraints⟩ hok
    · rw [max_sharpe, if_neg hn] at h
      simp at h
  · intro d h
    rw [min_volatility] at h ⊢
    dsimp only at h ⊢
    rw [Except.ok.injEq] at h
    subst h
    obtain ⟨d1, d2, d3, d4⟩ := dict_core s.tickers _ s.n_assets htk
      ((hlen ⟨.volatilityObj s.cov_matrix s.gamma, s.initial_guess, s.bounds,
        s.constraints⟩).trans hig) hnd
    refine ⟨d1, d2, d3, ?_⟩
    rw [d4]
    exact hbnd ⟨.volatilityObj s.cov_matrix s.gamma, s.initial_guess, s.bounds,
      s.constraints⟩ hok
  · intro d h
    rw [custom_objective] at h ⊢
    dsimp only at h ⊢
    rw [Except.ok.injEq] at h
    subst h
    obtain ⟨d1, d2, d3, d4⟩ := dict_core s.tickers _ s.n_assets htk
      ((hlen ⟨.customObj, s.initial_guess, s.bounds, s.constraints⟩).trans hig) hnd
    refine ⟨d1, d2, d3, ?_⟩
    rw [d4]
    exact hbnd ⟨.customObj, s.initial_guess, s.bounds, s.constraints⟩ hok
  · intro tr rfr mn d h
    cases tr with
    | int n => exact absurd h (by simp [efficient_risk])
    | other => exact absurd h (by simp [efficient_risk])
    | float t =>
      by_cases ht : t.ltZero = true
      · rw [efficient_risk, if_pos ht] at h
        simp at h
      · by_cases hn : rfr.isNumeric = true
        · cases her : s.expected_returns with
          | none =>
            rw [efficient_risk, if_neg ht, if_pos hn, her] at h
            simp at h
          | some mu =>
            have heq : efficient_risk s (.float t) rfr mn solver =
                efficient_risk_go s mu t mn solver := by
              rw [efficient_risk, if_neg ht, if_pos hn, her]
            rw [heq, efficient_risk_go_eq] at h ⊢
            dsimp only at h ⊢
            split at h
            · rw [Except.ok.injEq] at h
              subst h
              have hx0 : (efficient_risk_input s mu t mn).x0 = s.initial_guess := by
                rw [efficient_risk_input]
                exact (marketNeutralPrep_fields s mn).2.2.2.2.2.1
              have hxlen : (solver (efficient_risk_input s mu t mn)).length = s.n_assets := by
                rw [hlen, hx0, hig]
              obtain ⟨d1, d2, d3, d4⟩ := dict_core s.tickers _ s.n_assets htk hxlen hnd
              refine ⟨d1, d2, d3, ?_⟩
              rw [d4]
              exact hbnd (efficient_risk_input s mu t mn)
                (marketNeutralPrep_bounds_ok s mn hok)
            · simp at h
        · rw [efficient_risk, if_neg ht, if_neg hn] at h
          simp at h
  · intro tr mn d h
    cases tr with
    | int n => exact absurd h (by simp [efficient_return])
    | other => exact absurd h (by simp [efficient_return])
    | float t =>
      by_cases ht : t.ltZero = true
      · rw [efficient_return, if_pos ht] at h
        simp at h
      · cases her : s.expected_returns with
        | none =>
          rw [efficient_return, if_neg ht, her] at h
          simp at h
        | some mu =>
          have heq : efficient_return s (.float t) mn solver =
              efficient_return_go s mu t mn solver := by
            rw [efficient_return, if_neg ht, her]
          rw [heq, efficient_return_go_eq] at h ⊢
          dsimp only at h ⊢
          split at h
          · rw [Except.ok.injEq] at h
            subst h
            have hx0 : (efficient_return_input s mu t mn).x0 = s.initial_guess := by
              rw [efficient_return_input]
              exact (marketNeutralPrep_fields s mn).2.2.2.2.2.1
            have hxlen : (solver (efficient_return_input s mu t mn)).length = s.n_assets := by
              rw [hlen, hx0, hig]
            obtain ⟨d1, d2, d3, d4⟩ := dict_core s.tickers _ s.n_assets htk hxlen hnd
            refine ⟨d1, d2, d3, ?_⟩
            rw [d4]
            exact hbnd (efficient_return_input s mu t mn)
              (marketNeutralPrep_bounds_ok s mn hok)
          · simp at h
  · intro δ lin d hlin h
    by_cases hδ : δ ≤ 0
    · rw [max_unconstrained_utility, if_pos hδ] at h
      simp at h
    · cases her : s.expected_returns with
      | none =>
        rw [max_unconstrained_utility, if_neg hδ, her] at h
        simp at h
      | some mu =>
        rw [max_unconstrained_utility, if_neg hδ, her] at h
        dsimp only at h
        rw [Except.ok.injEq] at h
        subst h
        obtain ⟨d1, d2, d3, _⟩ := dict_core s.tickers _ s.n_assets htk (hlin _ _) hnd
        exact ⟨d1, d2, d3⟩

/-- Witness for C8 (amended): on `sEx` with the bound-respecting clamping
solver and zero tolerance, `min_volatility` returns a two-entry mapping
keyed by the tickers in order, with both weights inside the (0, 1)
bounds. -/
theorem returned_mapping_shape_and_bounds_witness :
    ∃ d, (min_volatility sEx solverClamp).out = .ok d ∧
      d.length = sEx.n_assets ∧ d.map Prod.fst = sEx.tickers ∧ (d.map Prod.fst).Nodup ∧
      withinBounds 0 (min_volatility sEx solverClamp).state.bounds (d.map Prod.snd)
        = true := by
  have hth := (returned_mapping_shape_and_bounds sEx 0 solverClamp rfl rfl (by decide)
    (by decide) (fun inp => clampList_length inp.bounds inp.x0)
    (fun inp h => withinBounds_clampList 0 (le_refl 0) inp.bounds inp.x0 h)).2.1
  exact ⟨_, rfl, hth _ rfl⟩
